import Mathlib

/-!
# Verification of the pg_guard query-interception pipeline

A shallow embedding of `src/main.rs` of the `pg_guard` Postgres proxy.
Rust strings are modelled as `List Char`; byte positions are computed from
the UTF-8 size of each character, so that the byte-indexed operations of
the source (`str::find`, slicing `&s[i..]`, `str::len`) are modelled
faithfully, including the panic behaviour of slicing at a position that is
not a character boundary (modelled as `Option.none`).
-/

namespace PgGuard

/-- Models Rust `char::to_uppercase` on the characters exercised by this
development: ASCII letters map as usual, the dotless i `'ı'` (U+0131) maps
to `'I'`, and `'ß'` maps to `"SS"`; all other characters are left fixed.
(The full Unicode table is external library behaviour; only these ranges
are reachable from the concrete inputs used below.) -/
def charToUppercase (c : Char) : List Char :=
  if 97 ≤ c.toNat ∧ c.toNat ≤ 122 then [Char.ofNat (c.toNat - 32)]
  else if c = 'ı' then ['I']
  else if c = 'ß' then ['S', 'S']
  else [c]

/-- Models Rust `char::to_lowercase` on the characters exercised here:
ASCII letters map as usual, everything else is left fixed. -/
def charToLowercase (c : Char) : List Char :=
  if 65 ≤ c.toNat ∧ c.toNat ≤ 90 then [Char.ofNat (c.toNat + 32)]
  else [c]

/-- Rust `str::to_uppercase`. -/
def toUppercase (s : List Char) : List Char :=
  (s.map charToUppercase).flatten

/-- Rust `str::to_lowercase`. -/
def toLowercase (s : List Char) : List Char :=
  (s.map charToLowercase).flatten

/-- Models Rust `char::is_whitespace` (the Unicode `White_Space` set). -/
def isRustWhitespace (c : Char) : Bool :=
  c.toNat = 0x20 || (0x09 ≤ c.toNat && c.toNat ≤ 0x0D) ||
  c.toNat = 0x85 || c.toNat = 0xA0 || c.toNat = 0x1680 ||
  (0x2000 ≤ c.toNat && c.toNat ≤ 0x200A) ||
  c.toNat = 0x2028 || c.toNat = 0x2029 || c.toNat = 0x202F ||
  c.toNat = 0x205F || c.toNat = 0x3000

/-- Rust `str::trim`. -/
def rustTrim (l : List Char) : List Char :=
  ((l.dropWhile isRustWhitespace).reverse.dropWhile isRustWhitespace).reverse

/-- Rust `str::trim_start`. -/
def rustTrimStart (l : List Char) : List Char :=
  l.dropWhile isRustWhitespace

/-- Rust `s.split_whitespace().next()`: the first maximal run of
non-whitespace characters, or `none` if the string is all whitespace. -/
def firstWhitespaceToken (l : List Char) : Option (List Char) :=
  match l.dropWhile isRustWhitespace with
  | [] => none
  | c :: rest => some ((c :: rest).takeWhile (fun d => ¬ isRustWhitespace d))

/-- Rust `str::trim_matches(';')`: strips every leading and trailing `';'`. -/
def trimMatchesSemi (l : List Char) : List Char :=
  ((l.dropWhile (· = ';')).reverse.dropWhile (· = ';')).reverse

/-- The number of bytes of the UTF-8 encoding of a character (the same
function as core's `Char.utf8Size`, stated over `Char.toNat` so that it
reduces by arithmetic). -/
def charUtf8Size (c : Char) : Nat :=
  if c.toNat < 0x80 then 1
  else if c.toNat < 0x800 then 2
  else if c.toNat < 0x10000 then 3
  else 4

/-- Rust `str::len`: the UTF-8 byte length. -/
def utf8Len (s : List Char) : Nat :=
  (s.map charUtf8Size).sum

/-- `isLeadOf p l` holds when `p` is a leading segment of `l`
(Rust `str::starts_with`). -/
def isLeadOf : List Char → List Char → Bool
  | [], _ => true
  | _ :: _, [] => false
  | a :: as, b :: bs => a == b && isLeadOf as bs

/-- Worker for `findSub`: scans `hay` left to right, accumulating the byte
offset of the scan position, and returns the byte offset of the first
position where `needle` is a leading segment. -/
def findSubAux (needle : List Char) : List Char → Nat → Option Nat
  | [], acc => if isLeadOf needle [] then some acc else none
  | c :: rest, acc =>
    if isLeadOf needle (c :: rest) then some acc
    else findSubAux needle rest (acc + charUtf8Size c)

/-- Rust `str::find(needle)`: byte index of the first occurrence. -/
def findSub (hay needle : List Char) : Option Nat :=
  findSubAux needle hay 0

/-- Rust `str::contains(needle)`. -/
def listContains (hay needle : List Char) : Bool :=
  (findSub hay needle).isSome

/-- Rust `s.splitn(2, sep)`: `some (before, after)` when `sep` occurs in
`s` (split at the first occurrence), `none` when it does not (the
one-part case of `splitn`). -/
def splitTwoAux (sep : List Char) : List Char → Option (List Char × List Char)
  | [] => if isLeadOf sep [] then some ([], []) else none
  | c :: rest =>
    if isLeadOf sep (c :: rest) then some ([], (c :: rest).drop sep.length)
    else (splitTwoAux sep rest).map (fun p => (c :: p.1, p.2))

/-- Rust slicing `&s[n..]` by byte index: `none` models the panic when `n`
is past the end of the string or not a character boundary. -/
def sliceFromByte : List Char → Nat → Option (List Char)
  | l, 0 => some l
  | [], _ + 1 => none
  | c :: rest, n + 1 =>
    if charUtf8Size c ≤ n + 1 then sliceFromByte rest (n + 1 - charUtf8Size c)
    else none

/-! ## The query analyzer (`QueryAnalyzer` in `src/main.rs`) -/

/-- The shape of a parsed statement, as far as `analyze_query` inspects it
(`sqlparser::ast::Statement`): the analyzer matches on `Drop`, `Truncate`,
`Delete`, and `Update { selection, .. }`; everything else is `other`. -/
inductive Stmt where
  | drop : Stmt
  | truncate : Stmt
  | delete : Stmt
  | update : Option Unit → Stmt
  | other : Stmt
deriving DecidableEq

/-- `enum QueryAction` from the source. -/
inductive QueryAction where
  | Allow : QueryAction
  | Block : List Char → QueryAction
  | CheckRows : List Char → QueryAction
deriving DecidableEq

/-- The literal `" WHERE "` used by the textual WHERE-clause checks. -/
def wherePat : List Char := " WHERE ".toList

/-- Table-name extraction (`extract_table_name_from_query`): find the
upper-cased prefix keyword in the upper-cased query (byte index), slice
the ORIGINAL query at that byte index plus the prefix byte length, then
take the first whitespace-separated token, stripping `';'`. The slice is
taken at a byte position computed on the upper-cased string, so it can
panic (`none`) when upper-casing changes byte positions. -/
def extract_table_name_from_query (query prefixKw : List Char) : Option (List Char) :=
  let upper_query := toUppercase query
  let upper_prefix := toUppercase prefixKw
  match findSub upper_query upper_prefix with
  | some start_pos =>
    match sliceFromByte query (start_pos + utf8Len prefixKw) with
    | none => none
    | some after_prefix =>
      let table_part := rustTrimStart after_prefix
      let table_name := (firstWhitespaceToken table_part).getD ("unknown".toList)
      some (trimMatchesSemi table_name)
  | none => some ("unknown".toList)

/-- The WHERE-clause reattachment shared verbatim by
`create_count_query_from_delete` and `create_count_query_from_update`:
if the upper-cased query contains `" WHERE "`, split the original query
on the literal `" WHERE "` with `splitn(2, _)` and, when that yields two
parts, reattach `" WHERE " ++ parts[1]`; otherwise the empty string. -/
def deriveWhereClause (q : List Char) : List Char :=
  if listContains (toUppercase q) wherePat then
    match splitTwoAux wherePat q with
    | some p => wherePat ++ p.2
    | none => []
  else []

/-- `create_count_query_from_delete` from the source. -/
def create_count_query_from_delete (q : List Char) : Option (List Char) :=
  (extract_table_name_from_query q ("DELETE FROM".toList)).map
    (fun t => ("SELECT COUNT(*) FROM ".toList) ++ t ++ deriveWhereClause q)

/-- `create_count_query_from_update` from the source. -/
def create_count_query_from_update (q : List Char) : Option (List Char) :=
  (extract_table_name_from_query q ("UPDATE".toList)).map
    (fun t => ("SELECT COUNT(*) FROM ".toList) ++ t ++ deriveWhereClause q)

/-- The `for statement in &ast` loop of `analyze_query`: returns on the
first DROP/TRUNCATE/DELETE/UPDATE-with-selection statement, falls through
on everything else, and yields `Allow` at the end of the list. A `none`
result models a panic inside the count-query derivation. -/
def analyzeStatements (query : List Char) : List Stmt → Option QueryAction
  | [] => some .Allow
  | .drop :: _ => some (.Block ("DROP statement blocked".toList))
  | .truncate :: _ => some (.Block ("TRUNCATE statement blocked".toList))
  | .delete :: _ =>
    if ¬ listContains (toUppercase query) wherePat then
      some (.Block ("DELETE without WHERE clause blocked".toList))
    else
      (create_count_query_from_delete query).map .CheckRows
  | .update (some _) :: _ =>
    (create_count_query_from_update query).map .CheckRows
  | .update none :: rest => analyzeStatements query rest
  | .other :: rest => analyzeStatements query rest

/-- `QueryAnalyzer::analyze_query`, parameterised by the external SQL
parser (`sqlparser::Parser::parse_sql`, an out-of-scope collaborator):
honeytoken check first, then parse (fail-open on parse error), then the
per-statement loop. -/
def analyze_query (parse : List Char → Option (List Stmt))
    (query : List Char) (honeytokens : List (List Char)) : Option QueryAction :=
  let query_lower := toLowercase query
  if honeytokens.any (fun h => listContains query_lower (toLowercase h)) then
    some (.Block ("honeytoken table access detected".toList))
  else
    match parse query with
    | none => some .Allow
    | some ast => analyzeStatements query ast

/-! ## Byte-level wire handling (`PostgresProxy` in `src/main.rs`) -/

/-- UTF-8 encoding of one character (Rust `char::encode_utf8`). -/
def utf8EncodeChar (c : Char) : List UInt8 :=
  let n := c.toNat
  if n < 0x80 then [UInt8.ofNat n]
  else if n < 0x800 then
    [UInt8.ofNat (0xC0 + n / 64), UInt8.ofNat (0x80 + n % 64)]
  else if n < 0x10000 then
    [UInt8.ofNat (0xE0 + n / 4096), UInt8.ofNat (0x80 + (n / 64) % 64),
     UInt8.ofNat (0x80 + n % 64)]
  else
    [UInt8.ofNat (0xF0 + n / 262144), UInt8.ofNat (0x80 + (n / 4096) % 64),
     UInt8.ofNat (0x80 + (n / 64) % 64), UInt8.ofNat (0x80 + n % 64)]

/-- UTF-8 encoding of a string (Rust `str::as_bytes`). -/
def utf8Encode (s : List Char) : List UInt8 :=
  (s.map utf8EncodeChar).flatten

/-- A UTF-8 continuation byte. -/
def isCont (b : UInt8) : Bool := 0x80 ≤ b && b ≤ 0xBF

/-- Strict UTF-8 decoding (Rust `String::from_utf8`): rejects truncated
sequences, stray continuation bytes, overlong encodings, surrogates and
code points above U+10FFFF, exactly per the well-formed byte sequences of
the Unicode standard. -/
def utf8Decode : List UInt8 → Option (List Char)
  | [] => some []
  | b0 :: t1 =>
    if b0 ≤ 0x7F then
      (utf8Decode t1).map (fun cs => Char.ofNat b0.toNat :: cs)
    else
      match t1 with
      | [] => none
      | b1 :: t2 =>
        if 0xC2 ≤ b0 ∧ b0 ≤ 0xDF ∧ isCont b1 then
          (utf8Decode t2).map (fun cs =>
            Char.ofNat ((b0.toNat - 0xC0) * 64 + (b1.toNat - 0x80)) :: cs)
        else
          match t2 with
          | [] => none
          | b2 :: t3 =>
            if ((b0 = 0xE0 ∧ 0xA0 ≤ b1 ∧ b1 ≤ 0xBF) ∨
                (0xE1 ≤ b0 ∧ b0 ≤ 0xEC ∧ isCont b1) ∨
                (b0 = 0xED ∧ 0x80 ≤ b1 ∧ b1 ≤ 0x9F) ∨
                (0xEE ≤ b0 ∧ b0 ≤ 0xEF ∧ isCont b1)) ∧ isCont b2 then
              (utf8Decode t3).map (fun cs =>
                Char.ofNat ((b0.toNat - 0xE0) * 4096 +
                  (b1.toNat - 0x80) * 64 + (b2.toNat - 0x80)) :: cs)
            else
              match t3 with
              | [] => none
              | b3 :: t4 =>
                if ((b0 = 0xF0 ∧ 0x90 ≤ b1 ∧ b1 ≤ 0xBF) ∨
                    (0xF1 ≤ b0 ∧ b0 ≤ 0xF3 ∧ isCont b1) ∨
                    (b0 = 0xF4 ∧ 0x80 ≤ b1 ∧ b1 ≤ 0x8F)) ∧
                    isCont b2 ∧ isCont b3 then
                  (utf8Decode t4).map (fun cs =>
                    Char.ofNat ((b0.toNat - 0xF0) * 262144 +
                      (b1.toNat - 0x80) * 4096 +
                      (b2.toNat - 0x80) * 64 + (b3.toNat - 0x80)) :: cs)
                else none

/-- Rust `iter().position(p)` on a byte slice. -/
def bytePosition (p : UInt8 → Bool) : List UInt8 → Option Nat
  | [] => none
  | b :: rest => if p b then some 0 else (bytePosition p rest).map (· + 1)

/-- `PostgresProxy::extract_query_from_message`: a chunk longer than 5
bytes whose first byte is `'Q'` (81) has its query text extracted from
byte offset 5 up to the first NUL, decoded as UTF-8 and trimmed. -/
def extract_query_from_message (data : List UInt8) : Option (List Char) :=
  if 5 < data.length ∧ data.head? = some 81 then
    let query_bytes := data.drop 5
    match bytePosition (fun b => b == 0) query_bytes with
    | some null_pos =>
      match utf8Decode (query_bytes.take null_pos) with
      | some cs => some (rustTrim cs)
      | none => none
    | none => none
  else none

/-- Big-endian bytes of `n as u32` (Rust `u32::to_be_bytes` after an
`as u32` truncation). -/
def be32 (n : Nat) : List UInt8 :=
  [UInt8.ofNat ((n / 16777216) % 256), UInt8.ofNat ((n / 65536) % 256),
   UInt8.ofNat ((n / 256) % 256), UInt8.ofNat (n % 256)]

/-- Reads a 4-byte big-endian length field back as a number. -/
def be32Decode : List UInt8 → Option Nat
  | [a, b, c, d] =>
    some (a.toNat * 16777216 + b.toNat * 65536 + c.toNat * 256 + d.toNat)
  | _ => none

/-- The bytes of `format!("SERROR\0C42000\0M{}\0\0", message)`. -/
def errorFields (message : List Char) : List UInt8 :=
  utf8Encode (("SERROR".toList) ++ [Char.ofNat 0] ++ ("C42000".toList) ++
    [Char.ofNat 0] ++ ['M'] ++ message ++ [Char.ofNat 0, Char.ofNat 0])

/-- `PostgresProxy::create_simple_error_response`: an `'E'` frame whose
length field is the field-block byte length plus 4, followed by a
`'Z'` (ReadyForQuery) frame of length 5 with status `'I'`. -/
def create_simple_error_response (message : List Char) : List UInt8 :=
  [UInt8.ofNat 69] ++ be32 ((errorFields message).length + 4) ++
    errorFields message ++ [UInt8.ofNat 90] ++ be32 5 ++ [UInt8.ofNat 73]

/-! ## The relay loop (`handle_bidirectional_proxy`) -/

/-- `PostgresProxy::check_row_count`: the first column of the first row,
or 0 when the probe returns no rows. -/
def check_row_count (rows : List Int) : Int :=
  match rows with
  | [] => 0
  | r :: _ => r

/-- The reason string `format!("would affect {} rows (limit {})", ..)`. -/
def wouldAffectReason (rowCount maxRows : Int) : List Char :=
  ("would affect ".toList) ++ (toString rowCount).toList ++
    (" rows (limit ".toList) ++ (toString maxRows).toList ++ (")".toList)

/-- Outcome of the probe query on the side connection. -/
inductive ProbeResult where
  | rows : List Int → ProbeResult
  | err : ProbeResult

/-- Outcome of a socket `write_all`. -/
inductive WriteResult where
  | ok : WriteResult
  | err : WriteResult
deriving DecidableEq

/-- What one loop iteration writes: at most one payload to the upstream
socket and at most one to the client socket. -/
structure StepEffects where
  toUpstream : Option (List UInt8)
  toClient : Option (List UInt8)
deriving DecidableEq

/-- How one loop iteration ends: `cont` loops again, `brk` leaves the
relay loop (session torn down), `panicked` models a Rust panic inside
the iteration (which also ends the session's task). -/
inductive StepOutcome where
  | cont : StepOutcome
  | brk : StepOutcome
  | panicked : StepOutcome
deriving DecidableEq

/-- One `tokio::select!` event: a read completion on the client or the
upstream socket; `none` is `Err(e)`, `some data` is `Ok(n)` with the
bytes read (`some []` is the zero-length end-of-stream read). -/
inductive ReadEvent where
  | clientRead : Option (List UInt8) → ReadEvent
  | dbRead : Option (List UInt8) → ReadEvent

/-- The `Ok(n)` client branch of the relay loop, for one non-empty chunk:
extract the query, classify it, and forward the ORIGINAL bytes upstream
on Allow (or resolved CheckRows), or send a synthesized error frame to
the client on Block / probe failure / over-limit CheckRows. `w` is the
outcome of whichever socket write the branch performs; a failed write of
an error response is logged but still `continue`s, while a failed
forwarding write `break`s. -/
def clientChunkStep (parse : List Char → Option (List Stmt))
    (honeytokens : List (List Char)) (maxRows : Int) (data : List UInt8)
    (probe : List Char → ProbeResult) (w : WriteResult) :
    StepEffects × StepOutcome :=
  match extract_query_from_message data with
  | some query =>
    match analyze_query parse query honeytokens with
    | some .Allow =>
      (⟨some data, none⟩, match w with | .ok => .cont | .err => .brk)
    | some (.Block reason) =>
      (⟨none, some (create_simple_error_response reason)⟩, .cont)
    | some (.CheckRows count_query) =>
      match probe count_query with
      | .rows rs =>
        if check_row_count rs > maxRows then
          (⟨none, some (create_simple_error_response
              (wouldAffectReason (check_row_count rs) maxRows))⟩, .cont)
        else
          (⟨some data, none⟩, match w with | .ok => .cont | .err => .brk)
      | .err =>
        (⟨none, some (create_simple_error_response
            ("Internal error checking row count".toList))⟩, .cont)
    | none => (⟨none, none⟩, .panicked)
  | none => (⟨some data, none⟩, match w with | .ok => .cont | .err => .brk)

/-- One iteration of the `loop { tokio::select! { .. } }` body of
`handle_bidirectional_proxy`, as a function of the select event, the
side-connection behaviour and the write outcome of the iteration. -/
def sessionStep (parse : List Char → Option (List Stmt))
    (honeytokens : List (List Char)) (maxRows : Int) (ev : ReadEvent)
    (probe : List Char → ProbeResult) (w : WriteResult) :
    StepEffects × StepOutcome :=
  match ev with
  | .clientRead none => (⟨none, none⟩, .brk)
  | .clientRead (some []) => (⟨none, none⟩, .brk)
  | .clientRead (some data) =>
    clientChunkStep parse honeytokens maxRows data probe w
  | .dbRead none => (⟨none, none⟩, .brk)
  | .dbRead (some []) => (⟨none, none⟩, .brk)
  | .dbRead (some data) =>
    (⟨none, some data⟩, match w with | .ok => .cont | .err => .brk)

/-! ## Helper lemmas about the string model -/

theorem isLeadOf_nil_right {p : List Char} : isLeadOf p [] = true ↔ p = [] := by
  cases p <;> simp [isLeadOf]

theorem isLeadOf_iff_append {p l : List Char} :
    isLeadOf p l = true ↔ ∃ t, l = p ++ t := by
  induction p generalizing l with
  | nil => simp [isLeadOf]
  | cons a as ih =>
    cases l with
    | nil => simp [isLeadOf]
    | cons b bs =>
      simp only [isLeadOf, Bool.and_eq_true, beq_iff_eq, ih, List.cons_append,
        List.cons.injEq]
      constructor
      · rintro ⟨rfl, t, rfl⟩; exact ⟨t, rfl, rfl⟩
      · rintro ⟨t, rfl, rfl⟩; exact ⟨rfl, t, rfl⟩

theorem isLeadOf_append_self (p t : List Char) : isLeadOf p (p ++ t) = true :=
  isLeadOf_iff_append.mpr ⟨t, rfl⟩

theorem isLeadOf_length {p l : List Char} (h : isLeadOf p l = true) :
    p.length ≤ l.length := by
  obtain ⟨t, rfl⟩ := isLeadOf_iff_append.mp h
  simp

theorem findSubAux_some_split {needle hay : List Char} {acc i : Nat}
    (h : findSubAux needle hay acc = some i) :
    ∃ x y, hay = x ++ needle ++ y := by
  induction hay generalizing acc with
  | nil =>
    simp only [findSubAux] at h
    split at h
    · exact ⟨[], [], by simp [isLeadOf_nil_right.mp (by assumption)]⟩
    · exact absurd h (by simp)
  | cons c rest ih =>
    simp only [findSubAux] at h
    split at h
    · obtain ⟨t, ht⟩ := isLeadOf_iff_append.mp (by assumption)
      exact ⟨[], t, by simp [ht]⟩
    · obtain ⟨x, y, hxy⟩ := ih h
      exact ⟨c :: x, y, by simp [hxy]⟩

theorem findSubAux_isSome_of_lead {needle l : List Char} {acc : Nat}
    (h : isLeadOf needle l = true) :
    (findSubAux needle l acc).isSome = true := by
  cases l with
  | nil => simp [findSubAux, h]
  | cons c rest => simp [findSubAux, h]

theorem findSubAux_isSome_append (needle y : List Char) :
    ∀ (x : List Char) (acc : Nat),
      (findSubAux needle (x ++ needle ++ y) acc).isSome = true := by
  intro x
  induction x with
  | nil =>
    intro acc
    exact findSubAux_isSome_of_lead (by simpa using isLeadOf_append_self needle y)
  | cons c cs ih =>
    intro acc
    simp only [List.cons_append, findSubAux]
    split
    · simp
    · exact ih _

theorem listContains_iff {hay needle : List Char} :
    listContains hay needle = true ↔ ∃ x y, hay = x ++ needle ++ y := by
  constructor
  · intro h
    simp only [listContains, findSub, Option.isSome_iff_exists] at h
    obtain ⟨i, hi⟩ := h
    exact findSubAux_some_split hi
  · rintro ⟨x, y, rfl⟩
    simpa [listContains, findSub] using findSubAux_isSome_append needle y x 0

theorem toUppercase_append (a b : List Char) :
    toUppercase (a ++ b) = toUppercase a ++ toUppercase b := by
  simp [toUppercase]

theorem toLowercase_append (a b : List Char) :
    toLowercase (a ++ b) = toLowercase a ++ toLowercase b := by
  simp [toLowercase]

theorem splitTwoAux_some_split {sep q x y : List Char}
    (h : splitTwoAux sep q = some (x, y)) : q = x ++ sep ++ y := by
  induction q generalizing x with
  | nil =>
    simp only [splitTwoAux] at h
    split at h
    · obtain ⟨rfl, rfl⟩ : x = [] ∧ y = [] := by
        simpa using h
      simp [isLeadOf_nil_right.mp (by assumption)]
    · exact absurd h (by simp)
  | cons c rest ih =>
    simp only [splitTwoAux] at h
    split at h
    · obtain ⟨t, ht⟩ := isLeadOf_iff_append.mp (by assumption)
      obtain ⟨rfl, rfl⟩ : x = [] ∧ y = (c :: rest).drop sep.length := by
        simpa using h.symm
      simp [ht, List.drop_left]
    · simp only [Option.map_eq_some'] at h
      obtain ⟨⟨x', y'⟩, hx', heq⟩ := h
      cases heq
      simp [ih hx']

theorem splitTwoAux_first_occurrence {sep : List Char} (hsep : sep ≠ []) :
    ∀ (x y : List Char) (q : List Char), q = x ++ sep ++ y →
      (∀ i, i < x.length → isLeadOf sep (q.drop i) = false) →
      splitTwoAux sep q = some (x, y) := by
  intro x
  induction x with
  | nil =>
    intro y q hq _
    subst hq
    cases sep with
    | nil => exact absurd rfl hsep
    | cons s ss =>
      have hlead := isLeadOf_append_self (s :: ss) y
      have hdrop : ((s :: ss) ++ y).drop (s :: ss).length = y :=
        List.drop_left _ _
      simp only [List.nil_append, List.cons_append] at hlead hdrop ⊢
      simp [splitTwoAux, hlead, hdrop]
  | cons c cs ih =>
    intro y q hq hmin
    subst hq
    have h0 : isLeadOf sep ((c :: cs ++ sep ++ y).drop 0) = false :=
      hmin 0 (by simp)
    simp only [List.drop_zero] at h0
    cases sep with
    | nil => exact absurd rfl hsep
    | cons s ss =>
      have hrec := ih y (cs ++ (s :: ss) ++ y) rfl (fun i hi => by
        have := hmin (i + 1) (by simpa using Nat.succ_lt_succ hi)
        simpa using this)
      simp only [List.cons_append, splitTwoAux]
      rw [if_neg (by simp_all)]
      simp only [List.append_eq]
      rw [hrec]
      rfl

/-- The statement loop yields `Allow` when every statement is an UPDATE
without a filter predicate or some other non-special statement kind. -/
theorem analyzeStatements_allow (query : List Char) :
    ∀ ss : List Stmt, (∀ s ∈ ss, s = Stmt.update none ∨ s = Stmt.other) →
      analyzeStatements query ss = some .Allow := by
  intro ss
  induction ss with
  | nil => intro _; rfl
  | cons s rest ih =>
    intro hall
    rcases hall s (by simp) with h | h <;> subst h <;>
      simpa [analyzeStatements] using ih (fun t ht => hall t (by simp [ht]))

theorem toNat_ofNat_of_lt {n : Nat} (h : n < 0xd800) :
    (Char.ofNat n).toNat = n := by
  have hv : n.isValidChar := Or.inl h
  unfold Char.ofNat
  rw [dif_pos hv]
  simp [Char.ofNatAux, Char.toNat, UInt32.toNat]

theorem charUtf8Size_ascii {c : Char} (h : c.toNat < 128) :
    charUtf8Size c = 1 := by
  simp [charUtf8Size, h]

/-- Upper-casing an ASCII character yields one ASCII character. -/
theorem charToUppercase_ascii {c : Char} (h : c.toNat < 128) :
    ∃ d, charToUppercase c = [d] ∧ d.toNat < 128 := by
  by_cases h1 : 97 ≤ c.toNat ∧ c.toNat ≤ 122
  · refine ⟨Char.ofNat (c.toNat - 32), by simp [charToUppercase, h1], ?_⟩
    rw [toNat_ofNat_of_lt (by omega)]
    omega
  · have h2 : c ≠ 'ı' := fun hc => absurd (hc ▸ h) (by decide)
    have h3 : c ≠ 'ß' := fun hc => absurd (hc ▸ h) (by decide)
    exact ⟨c, by simp [charToUppercase, h1, h2, h3], h⟩

theorem toUppercase_ascii_length {q : List Char}
    (h : ∀ c ∈ q, c.toNat < 128) : (toUppercase q).length = q.length := by
  induction q with
  | nil => rfl
  | cons c rest ih =>
    obtain ⟨d, hd, _⟩ := charToUppercase_ascii (h c (by simp))
    have : toUppercase (c :: rest) = charToUppercase c ++ toUppercase rest := by
      simp [toUppercase]
    rw [this, hd]
    simpa using ih (fun x hx => h x (by simp [hx]))

theorem toUppercase_ascii_mem {q : List Char}
    (h : ∀ c ∈ q, c.toNat < 128) : ∀ c ∈ toUppercase q, c.toNat < 128 := by
  induction q with
  | nil => simp [toUppercase]
  | cons c rest ih =>
    obtain ⟨d, hd, hdlt⟩ := charToUppercase_ascii (h c (by simp))
    have heq : toUppercase (c :: rest) = charToUppercase c ++ toUppercase rest := by
      simp [toUppercase]
    rw [heq, hd]
    intro x hx
    rcases List.mem_append.mp hx with hx | hx
    · simpa using List.mem_singleton.mp hx ▸ hdlt
    · exact ih (fun y hy => h y (by simp [hy])) x hx

theorem utf8Len_ascii {l : List Char} (h : ∀ c ∈ l, c.toNat < 128) :
    utf8Len l = l.length := by
  induction l with
  | nil => rfl
  | cons c rest ih =>
    have h1 : charUtf8Size c = 1 := charUtf8Size_ascii (h c (by simp))
    simp only [utf8Len, List.map_cons, List.sum_cons, List.length_cons] at *
    rw [h1, ih (fun x hx => h x (by simp [hx]))]
    omega

theorem findSubAux_ascii_bound {needle : List Char} :
    ∀ {hay : List Char} {acc i : Nat},
      (∀ c ∈ hay, charUtf8Size c = 1) →
      findSubAux needle hay acc = some i →
      acc ≤ i ∧ i - acc + needle.length ≤ hay.length := by
  intro hay
  induction hay with
  | nil =>
    intro acc i _ h
    simp only [findSubAux] at h
    split at h
    · obtain rfl : acc = i := by simpa using h
      simp [isLeadOf_nil_right.mp (by assumption)]
    · exact absurd h (by simp)
  | cons c rest ih =>
    intro acc i hsz h
    simp only [findSubAux] at h
    split at h
    · obtain rfl : acc = i := by simpa using h
      have := isLeadOf_length (by assumption)
      simp only [List.length_cons] at *
      omega
    · have hc : charUtf8Size c = 1 := hsz c (by simp)
      rw [hc] at h
      have := ih (fun x hx => hsz x (by simp [hx])) h
      simp only [List.length_cons]
      omega

theorem sliceFromByte_isSome :
    ∀ {l : List Char} {n : Nat},
      (∀ c ∈ l, charUtf8Size c = 1) → n ≤ l.length →
      (sliceFromByte l n).isSome = true := by
  intro l
  induction l with
  | nil =>
    intro n _ hn
    obtain rfl : n = 0 := Nat.le_zero.mp hn
    simp [sliceFromByte]
  | cons c rest ih =>
    intro n hsz hn
    cases n with
    | zero => simp [sliceFromByte]
    | succ m =>
      have hc : charUtf8Size c = 1 := hsz c (by simp)
      simp only [sliceFromByte, hc]
      rw [if_pos (by omega)]
      exact ih (fun x hx => hsz x (by simp [hx])) (by simp at hn; omega)

/-! ## Claim theorems -/

/-- C1: for every query string and every configured honeytoken list, if
the lower-cased query text contains the lower-cased form of some
configured honeytoken as a substring, then `analyze_query` returns
`Block("honeytoken table access detected")` — for EVERY parser behaviour
(the parse outcome is never consulted), so the rule holds whether or not
the query parses and takes precedence over every other rule. -/
theorem honeytoken_always_blocks (parse : List Char → Option (List Stmt))
    (query : List Char) (honeytokens : List (List Char))
    (h : ∃ t ∈ honeytokens, ∃ x y, toLowercase query = x ++ toLowercase t ++ y) :
    analyze_query parse query honeytokens =
      some (.Block ("honeytoken table access detected".toList)) := by
  obtain ⟨t, ht, x, y, hxy⟩ := h
  have hany : honeytokens.any
      (fun tok => listContains (toLowercase query) (toLowercase tok)) = true := by
    rw [List.any_eq_true]
    exact ⟨t, ht, listContains_iff.mpr ⟨x, y, hxy⟩⟩
  simp [analyze_query, hany]

/-- Witness for C1: a mixed-case mention of the default honeytoken
`_vibedb_canary` is blocked even under a parser that always fails. -/
theorem honeytoken_always_blocks_witness :
    analyze_query (fun _ => none) ("SELECT * FROM _Vibedb_Canary".toList)
      ["_vibedb_canary".toList] =
      some (.Block ("honeytoken table access detected".toList)) :=
  honeytoken_always_blocks _ _ _
    ⟨"_vibedb_canary".toList, by decide,
     "select * from ".toList, [], by decide⟩

/-- C2: a query matching no honeytoken whose parse result starts with a
DELETE statement is blocked with `"DELETE without WHERE clause blocked"`
when the upper-cased query text does not contain `" WHERE "`, and
otherwise yields `CheckRows` of the probe built by
`create_count_query_from_delete` (whose panic, when the count-query
derivation panics, propagates as `none`). -/
theorem delete_rule (parse : List Char → Option (List Stmt))
    (query : List Char) (honeytokens : List (List Char)) (rest : List Stmt)
    (hht : honeytokens.any
      (fun t => listContains (toLowercase query) (toLowercase t)) = false)
    (hp : parse query = some (Stmt.delete :: rest)) :
    analyze_query parse query honeytokens =
      if listContains (toUppercase query) wherePat then
        (create_count_query_from_delete query).map QueryAction.CheckRows
      else some (.Block ("DELETE without WHERE clause blocked".toList)) := by
  by_cases hW : listContains (toUppercase query) wherePat = true
  · simp [analyze_query, hht, hp, analyzeStatements, hW]
  · simp only [Bool.not_eq_true] at hW
    simp [analyze_query, hht, hp, analyzeStatements, hW]

/-- Witness for C2, covering both branches: a DELETE with `" WHERE "`
resolves to the derived `CheckRows` probe, and a DELETE without it is
blocked. -/
theorem delete_rule_witness :
    analyze_query (fun _ => some [Stmt.delete])
        ("DELETE FROM orders WHERE id = 5".toList) [] =
      some (.CheckRows ("SELECT COUNT(*) FROM orders WHERE id = 5".toList))
    ∧ analyze_query (fun _ => some [Stmt.delete])
        ("DELETE FROM orders".toList) [] =
      some (.Block ("DELETE without WHERE clause blocked".toList)) := by
  constructor
  · rw [delete_rule (fun _ => some [Stmt.delete])
      ("DELETE FROM orders WHERE id = 5".toList) [] [] (by decide) rfl]
    decide
  · rw [delete_rule (fun _ => some [Stmt.delete])
      ("DELETE FROM orders".toList) [] [] (by decide) rfl]
    decide

/-- C5: for a query matching no honeytoken, an UPDATE statement with a
filter predicate at the head of the parse yields `CheckRows` of the
derived probe, while a parse made solely of filterless UPDATEs (and
other non-special statements) triggers nothing, so the overall result is
`Allow`, not `Block`. -/
theorem update_rule (parse : List Char → Option (List Stmt))
    (query : List Char) (honeytokens : List (List Char))
    (hht : honeytokens.any
      (fun t => listContains (toLowercase query) (toLowercase t)) = false) :
    (∀ (u : Unit) (rest : List Stmt),
      parse query = some (Stmt.update (some u) :: rest) →
      analyze_query parse query honeytokens =
        (create_count_query_from_update query).map QueryAction.CheckRows)
    ∧ (∀ ss : List Stmt, parse query = some ss →
        (∀ s ∈ ss, s = Stmt.update none ∨ s = Stmt.other) →
        analyze_query parse query honeytokens = some .Allow) := by
  constructor
  · intro u rest hp
    simp [analyze_query, hht, hp, analyzeStatements]
  · intro ss hp hall
    simp [analyze_query, hht, hp, analyzeStatements_allow query ss hall]

/-- Witness for C5: a filtered UPDATE yields its `CheckRows` probe, and a
filterless UPDATE yields `Allow`. -/
theorem update_rule_witness :
    analyze_query (fun _ => some [Stmt.update (some ())])
        ("UPDATE accounts SET balance = 1 WHERE id = 7".toList) [] =
      some (.CheckRows ("SELECT COUNT(*) FROM accounts WHERE id = 7".toList))
    ∧ analyze_query (fun _ => some [Stmt.update none])
        ("UPDATE accounts SET balance = 0".toList) [] = some .Allow := by
  constructor
  · rw [(update_rule (fun _ => some [Stmt.update (some ())])
      ("UPDATE accounts SET balance = 1 WHERE id = 7".toList) []
      (by decide)).1 () [] rfl]
    decide
  · exact (update_rule (fun _ => some [Stmt.update none])
      ("UPDATE accounts SET balance = 0".toList) [] (by decide)).2
      [Stmt.update none] rfl (by decide)

/-- When the literal `" WHERE "` occurs in the query, with its first
occurrence after `x`, the reattached filter is `" WHERE "` plus
everything after that occurrence. -/
theorem deriveWhereClause_of_occurrence {q x y : List Char}
    (hq : q = x ++ wherePat ++ y)
    (hfirst : ∀ i, i < x.length → isLeadOf wherePat (q.drop i) = false) :
    deriveWhereClause q = wherePat ++ y := by
  have hup : toUppercase q = toUppercase x ++ wherePat ++ toUppercase y := by
    subst hq
    rw [toUppercase_append, toUppercase_append]
    have : toUppercase wherePat = wherePat := by decide
    rw [this]
  have hcontains : listContains (toUppercase q) wherePat = true :=
    listContains_iff.mpr ⟨toUppercase x, toUppercase y, hup⟩
  have hsplit : splitTwoAux wherePat q = some (x, y) :=
    splitTwoAux_first_occurrence (by decide) x y q hq hfirst
  simp [deriveWhereClause, hcontains, hsplit]

/-- When the literal `" WHERE "` does not occur in the query, no filter
is reattached — even when the upper-cased query does contain `" WHERE "`
(both branches of the derivation yield the empty filter then). -/
theorem deriveWhereClause_of_no_occurrence {q : List Char}
    (h : ∀ x y, q ≠ x ++ wherePat ++ y) :
    deriveWhereClause q = [] := by
  have hsplit : splitTwoAux wherePat q = none := by
    cases hs : splitTwoAux wherePat q with
    | none => rfl
    | some p =>
      obtain ⟨a, b⟩ := p
      exact absurd (splitTwoAux_some_split hs) (h a b)
  unfold deriveWhereClause
  split
  · simp [hsplit]
  · rfl

/-- C3 (amended): the derived probe for a DELETE or UPDATE query carries
a `" WHERE "` filter exactly when the ORIGINAL query text contains the
literal, case-sensitive substring `" WHERE "`; in that case the filter is
`" WHERE "` plus everything after the first such occurrence of the
original text. When the original text has no literal `" WHERE "`
occurrence, no filter is appended — even if the upper-cased text does
contain `" WHERE "` (the situation of the counterexample, which refutes
the original claim's "always carries a WHERE filter whenever the
original text contains it case-insensitively"). -/
theorem count_query_filter (q : List Char) :
    (∀ x y, q = x ++ wherePat ++ y →
      (∀ i, i < x.length → isLeadOf wherePat (q.drop i) = false) →
      (∀ t, extract_table_name_from_query q ("DELETE FROM".toList) = some t →
        create_count_query_from_delete q =
          some (("SELECT COUNT(*) FROM ".toList) ++ t ++ (wherePat ++ y)))
      ∧ (∀ t, extract_table_name_from_query q ("UPDATE".toList) = some t →
        create_count_query_from_update q =
          some (("SELECT COUNT(*) FROM ".toList) ++ t ++ (wherePat ++ y))))
    ∧ ((∀ x y, q ≠ x ++ wherePat ++ y) →
      (∀ t, extract_table_name_from_query q ("DELETE FROM".toList) = some t →
        create_count_query_from_delete q =
          some (("SELECT COUNT(*) FROM ".toList) ++ t))
      ∧ (∀ t, extract_table_name_from_query q ("UPDATE".toList) = some t →
        create_count_query_from_update q =
          some (("SELECT COUNT(*) FROM ".toList) ++ t))) := by
  constructor
  · intro x y hq hfirst
    have hw := deriveWhereClause_of_occurrence hq hfirst
    constructor <;> intro t ht <;>
      simp only [create_count_query_from_delete, create_count_query_from_update,
        ht, hw, Option.map_some']
  · intro hnone
    have hw := deriveWhereClause_of_no_occurrence hnone
    constructor <;> intro t ht <;>
      simp only [create_count_query_from_delete, create_count_query_from_update,
        ht, hw, Option.map_some', List.append_nil]

/-- Witness for C3 (amended): both derivers on concrete queries with a
literal `" WHERE "`, and the DELETE deriver on a query without one. -/
theorem count_query_filter_witness :
    create_count_query_from_delete ("DELETE FROM orders WHERE id = 5".toList) =
      some ("SELECT COUNT(*) FROM orders WHERE id = 5".toList)
    ∧ create_count_query_from_update
        ("UPDATE accounts SET b = 0 WHERE id > 3".toList) =
      some ("SELECT COUNT(*) FROM accounts WHERE id > 3".toList)
    ∧ create_count_query_from_delete ("DELETE FROM orders".toList) =
      some ("SELECT COUNT(*) FROM orders".toList) := by
  refine ⟨?_, ?_, ?_⟩
  · rw [((count_query_filter ("DELETE FROM orders WHERE id = 5".toList)).1
      ("DELETE FROM orders".toList) ("id = 5".toList) (by decide) (by decide)).1
      ("orders".toList) (by decide)]
    decide
  · rw [((count_query_filter ("UPDATE accounts SET b = 0 WHERE id > 3".toList)).1
      ("UPDATE accounts SET b = 0".toList) ("id > 3".toList) (by decide)
      (by decide)).2 ("accounts".toList) (by decide)]
    decide
  · rw [((count_query_filter ("DELETE FROM orders".toList)).2
      (fun x y hxy =>
        absurd (listContains_iff.mpr ⟨x, y, hxy⟩) (by decide))).1
      ("orders".toList) (by decide)]
    decide

/-- C3 counterexample: `"DELETE FROM t where a = 1"` upper-cases to a
string containing `" WHERE "`, yet the derived probe is
`"SELECT COUNT(*) FROM t"`, carrying no WHERE filter at all: the
`splitn(2, " WHERE ")` on the original text finds no separator. -/
theorem count_query_filter_counterexample :
    listContains (toUppercase ("DELETE FROM t where a = 1".toList))
      wherePat = true
    ∧ create_count_query_from_delete ("DELETE FROM t where a = 1".toList) =
        some ("SELECT COUNT(*) FROM t".toList)
    ∧ listContains ("SELECT COUNT(*) FROM t".toList) wherePat = false := by
  decide

/-- C10 (amended): table-name extraction is total on ASCII queries and
keyword prefixes — there the byte position computed on the upper-cased
string is always a valid boundary of the original — but it is NOT total
in general (see the counterexample, where upper-casing shrinks the byte
positions and the slice falls inside a multi-byte character). -/
theorem extract_table_name_total_ascii (q p : List Char)
    (hq : ∀ c ∈ q, c.toNat < 128) (hp : ∀ c ∈ p, c.toNat < 128) :
    (extract_table_name_from_query q p).isSome = true := by
  simp only [extract_table_name_from_query]
  cases hf : findSub (toUppercase q) (toUppercase p) with
  | none => simp
  | some i =>
    have hbound := findSubAux_ascii_bound
      (fun c hc => charUtf8Size_ascii (toUppercase_ascii_mem hq c hc)) hf
    have hlq : (toUppercase q).length = q.length := toUppercase_ascii_length hq
    have hlp : (toUppercase p).length = p.length := toUppercase_ascii_length hp
    have hup : utf8Len p = p.length := utf8Len_ascii hp
    have hle : i + utf8Len p ≤ q.length := by omega
    have hslice := sliceFromByte_isSome
      (fun c hc => charUtf8Size_ascii (hq c hc)) hle
    cases hs : sliceFromByte q (i + utf8Len p) with
    | none => rw [hs] at hslice; simp at hslice
    | some after => simp [hs]

/-- Witness for C10 (amended) at a concrete ASCII query. -/
theorem extract_table_name_total_ascii_witness :
    (extract_table_name_from_query ("DELETE FROM orders WHERE id = 5".toList)
      ("DELETE FROM".toList)).isSome = true :=
  extract_table_name_total_ascii _ _ (by decide) (by decide)

/-- C10 counterexample: on `"ıııııııııııı" ++ "DELETE FROM t"` the keyword
is found at byte 12 of the upper-cased text (each `'ı'` upper-cases to the
1-byte `'I'`), but byte 23 of the original text falls inside the 12th
2-byte `'ı'`, so the slice `&query[23..]` panics: extraction is not total. -/
theorem extract_table_name_total_counterexample :
    extract_table_name_from_query
      ((List.replicate 12 'ı') ++ ("DELETE FROM t".toList))
      ("DELETE FROM".toList) = none := by
  decide

/-- C6: a query matching no honeytoken whose text fails SQL parsing is
allowed (fail-open): a parse error never yields `Block` or `CheckRows`. -/
theorem unparseable_allows (parse : List Char → Option (List Stmt))
    (query : List Char) (honeytokens : List (List Char))
    (hht : honeytokens.any
      (fun t => listContains (toLowercase query) (toLowercase t)) = false)
    (hp : parse query = none) :
    analyze_query parse query honeytokens = some .Allow := by
  simp [analyze_query, hht, hp]

/-- Witness for C6: garbage input under a failing parser is allowed. -/
theorem unparseable_allows_witness :
    analyze_query (fun _ => none) ("DELETE FROM WHERE ???".toList)
      ["_vibedb_canary".toList] = some .Allow :=
  unparseable_allows _ _ _ (by decide) rfl

theorem bytePosition_zero_mem {l : List UInt8} (h : (0 : UInt8) ∈ l) :
    ∃ i, bytePosition (fun b => b == 0) l = some i ∧
      l.take i = l.takeWhile (fun b => b != 0) := by
  induction l with
  | nil => simp at h
  | cons b rest ih =>
    by_cases hb : b = 0
    · subst hb
      exact ⟨0, by simp [bytePosition], by simp⟩
    · have hmem : (0 : UInt8) ∈ rest := by
        rcases List.mem_cons.mp h with h' | h'
        · exact absurd h'.symm hb
        · exact h'
      obtain ⟨i, hi, ht⟩ := ih hmem
      refine ⟨i + 1, by simp [bytePosition, hb, hi], ?_⟩
      simp [List.take_succ_cons, List.takeWhile_cons, hb, ht]

theorem bytePosition_zero_none {l : List UInt8} (h : (0 : UInt8) ∉ l) :
    bytePosition (fun b => b == 0) l = none := by
  induction l with
  | nil => rfl
  | cons b rest ih =>
    have hb : ¬ b = 0 := fun hb => h (by simp [hb])
    have hrest : (0 : UInt8) ∉ rest := fun hm => h (by simp [hm])
    simp [bytePosition, hb, ih hrest]

/-- C7: the framer extracts a query exactly when the chunk is longer than
5 bytes, starts with the tag byte `'Q'` (81), and has a NUL at or after
offset 5 with the bytes from offset 5 up to that first NUL decoding as
valid UTF-8; the result is the decoded text with surrounding whitespace
trimmed. In every other case it yields `none`. (The framer is a pure
function of the input bytes by construction of the model.) -/
theorem extract_query_spec (data : List UInt8) :
    extract_query_from_message data =
      if 5 < data.length ∧ data.head? = some 81 ∧ (0 : UInt8) ∈ data.drop 5
      then (utf8Decode ((data.drop 5).takeWhile (fun b => b != 0))).map rustTrim
      else none := by
  by_cases h1 : 5 < data.length ∧ data.head? = some 81
  · by_cases h2 : (0 : UInt8) ∈ data.drop 5
    · obtain ⟨i, hi, ht⟩ := bytePosition_zero_mem h2
      rw [if_pos ⟨h1.1, h1.2, h2⟩]
      simp only [extract_query_from_message, if_pos h1, hi, ← ht]
      cases utf8Decode ((data.drop 5).take i) <;> simp
    · rw [if_neg (fun hc => h2 hc.2.2)]
      simp only [extract_query_from_message, if_pos h1,
        bytePosition_zero_none h2]
  · rw [if_neg (fun hc => h1 ⟨hc.1, hc.2.1⟩)]
    simp only [extract_query_from_message, if_neg h1]

/-- The field block of the claim: `"S"+"ERROR"+NUL`, `"C"+"42000"+NUL`,
`"M"+message+NUL`, and a final NUL terminator. -/
def fieldBlockSpec (m : List Char) : List UInt8 :=
  [83] ++ utf8Encode ("ERROR".toList) ++ [0] ++ [67] ++
    utf8Encode ("42000".toList) ++ [0] ++ [77] ++ utf8Encode m ++ [0, 0]

theorem utf8Encode_append (a b : List Char) :
    utf8Encode (a ++ b) = utf8Encode a ++ utf8Encode b := by
  simp [utf8Encode]

theorem errorFields_eq (m : List Char) : errorFields m = fieldBlockSpec m := by
  show utf8Encode
    ((("SERROR".toList ++ [Char.ofNat 0] ++ ("C42000".toList) ++
      [Char.ofNat 0] ++ ['M']) ++ m) ++ [Char.ofNat 0, Char.ofNat 0]) = _
  rw [utf8Encode_append, utf8Encode_append]
  have h1 : utf8Encode ("SERROR".toList ++ [Char.ofNat 0] ++
      ("C42000".toList) ++ [Char.ofNat 0] ++ ['M']) =
      [83, 69, 82, 82, 79, 82, 0, 67, 52, 50, 48, 48, 48, 0, 77] := by decide
  have h2 : utf8Encode [Char.ofNat 0, Char.ofNat 0] = [0, 0] := by decide
  have h3 : utf8Encode ['E', 'R', 'R', 'O', 'R'] = [69, 82, 82, 79, 82] := by
    decide
  have h4 : utf8Encode ['4', '2', '0', '0', '0'] = [52, 50, 48, 48, 48] := by
    decide
  rw [h1, h2]
  simp [fieldBlockSpec, h3, h4]

theorem be32Decode_be32 (n : Nat) :
    be32Decode (be32 n) = some (n % 4294967296) := by
  simp only [be32, be32Decode]
  rw [UInt8.toNat_ofNat_of_lt (Nat.mod_lt _ (by decide)),
      UInt8.toNat_ofNat_of_lt (Nat.mod_lt _ (by decide)),
      UInt8.toNat_ofNat_of_lt (Nat.mod_lt _ (by decide)),
      UInt8.toNat_ofNat_of_lt (Nat.mod_lt _ (by decide))]
  congr 1
  simp only [UInt8.size]
  omega

/-- C8: the encoder's output is the `'E'` tag, the 4-byte big-endian
length field decoding to the field block's byte length plus 4, the field
block `"S"+"ERROR"+NUL + "C"+"42000"+NUL + "M"+m+NUL + NUL` itself, and
immediately after it the 6-byte ready-for-query frame
`['Z', 0, 0, 0, 5, 'I']`. (The length hypothesis reflects the `as u32`
truncation of the source.) -/
theorem error_response_spec (m : List Char)
    (h : (fieldBlockSpec m).length + 4 < 4294967296) :
    create_simple_error_response m =
      [69] ++ be32 ((fieldBlockSpec m).length + 4) ++ fieldBlockSpec m ++
        [90, 0, 0, 0, 5, 73]
    ∧ be32Decode (((create_simple_error_response m).drop 1).take 4) =
        some ((fieldBlockSpec m).length + 4)
    ∧ (create_simple_error_response m).drop (5 + (fieldBlockSpec m).length) =
        [90, 0, 0, 0, 5, 73] := by
  have hz : be32 5 = [0, 0, 0, 5] := by decide
  have hmain : create_simple_error_response m =
      [69] ++ be32 ((fieldBlockSpec m).length + 4) ++ fieldBlockSpec m ++
        [90, 0, 0, 0, 5, 73] := by
    simp only [create_simple_error_response, errorFields_eq, hz]
    simp
  refine ⟨hmain, ?_, ?_⟩
  · rw [hmain]
    have htake : (([69] ++ be32 ((fieldBlockSpec m).length + 4) ++
        fieldBlockSpec m ++ [90, 0, 0, 0, 5, 73]).drop 1).take 4 =
        be32 ((fieldBlockSpec m).length + 4) := by
      simp [be32]
    rw [htake, be32Decode_be32, Nat.mod_eq_of_lt h]
  · rw [hmain]
    have hsplit : [69] ++ be32 ((fieldBlockSpec m).length + 4) ++
        fieldBlockSpec m ++ [90, 0, 0, 0, 5, 73] =
        ([69] ++ be32 ((fieldBlockSpec m).length + 4) ++ fieldBlockSpec m) ++
          [90, 0, 0, 0, 5, 73] := by
      simp
    have hlen : ([69] ++ be32 ((fieldBlockSpec m).length + 4) ++
        fieldBlockSpec m).length = 5 + (fieldBlockSpec m).length := by
      simp [be32]
      omega
    rw [hsplit, ← hlen, List.drop_left]

/-- Witness for C8 at the concrete message of a row-limit rejection. -/
theorem error_response_spec_witness :
    create_simple_error_response ("would affect 600 rows (limit 500)".toList) =
      [69] ++ be32 ((fieldBlockSpec
          ("would affect 600 rows (limit 500)".toList)).length + 4) ++
        fieldBlockSpec ("would affect 600 rows (limit 500)".toList) ++
        [90, 0, 0, 0, 5, 73] :=
  (error_response_spec ("would affect 600 rows (limit 500)".toList)
    (by decide)).1

theorem extract_some_ne_nil {data : List UInt8} {q : List Char}
    (h : extract_query_from_message data = some q) : data ≠ [] := by
  intro hd
  subst hd
  simp [extract_query_from_message] at h

/-- C4: resolution of a `CheckRows` action in the relay loop: when the
probe's row count strictly exceeds the configured ceiling, nothing is
forwarded upstream and the client receives the encoded error frame whose
reason is exactly `"would affect {rowCount} rows (limit {maxRows})"`;
otherwise the ORIGINAL unmodified client bytes are forwarded upstream and
nothing is sent to the client. An empty probe result counts as zero rows,
hence the statement is forwarded whenever the ceiling is non-negative. -/
theorem checkrows_resolution (parse : List Char → Option (List Stmt))
    (honeytokens : List (List Char)) (maxRows : Int) (data : List UInt8)
    (probe : List Char → ProbeResult) (w : WriteResult)
    (q cq : List Char) (rs : List Int)
    (hq : extract_query_from_message data = some q)
    (ha : analyze_query parse q honeytokens = some (.CheckRows cq))
    (hp : probe cq = .rows rs) :
    (check_row_count rs > maxRows →
      clientChunkStep parse honeytokens maxRows data probe w =
        (⟨none, some (create_simple_error_response
            (wouldAffectReason (check_row_count rs) maxRows))⟩, .cont))
    ∧ (check_row_count rs ≤ maxRows →
      clientChunkStep parse honeytokens maxRows data probe w =
        (⟨some data, none⟩, match w with | .ok => .cont | .err => .brk))
    ∧ (rs = [] → check_row_count rs = 0)
    ∧ (rs = [] → 0 ≤ maxRows →
      (clientChunkStep parse honeytokens maxRows data probe w).1 =
        ⟨some data, none⟩) := by
  have hstep : clientChunkStep parse honeytokens maxRows data probe w =
      if check_row_count rs > maxRows then
        (⟨none, some (create_simple_error_response
            (wouldAffectReason (check_row_count rs) maxRows))⟩, .cont)
      else (⟨some data, none⟩, match w with | .ok => .cont | .err => .brk) := by
    simp only [clientChunkStep, hq, ha, hp]
  refine ⟨?_, ?_, ?_, ?_⟩
  · intro h
    rw [hstep, if_pos h]
  · intro h
    rw [hstep, if_neg (by omega)]
  · intro h
    subst h
    rfl
  · intro h hm
    subst h
    have h0 : check_row_count [] = 0 := rfl
    rw [hstep, if_neg (by rw [h0]; omega)]

/-- Witness for C4: a DELETE probing 600 rows against a ceiling of 500 is
rejected with the exact formatted reason; probing 3 rows forwards the
original frame bytes; an empty probe result is forwarded as zero rows. -/
theorem checkrows_resolution_witness :
    clientChunkStep (fun _ => some [Stmt.delete]) [] 500
        (81 :: 0 :: 0 :: 0 :: 0 ::
          (utf8Encode ("DELETE FROM orders WHERE id = 5".toList) ++ [0]))
        (fun _ => .rows [600]) .ok =
      (⟨none, some (create_simple_error_response
          ("would affect 600 rows (limit 500)".toList))⟩, .cont)
    ∧ clientChunkStep (fun _ => some [Stmt.delete]) [] 500
        (81 :: 0 :: 0 :: 0 :: 0 ::
          (utf8Encode ("DELETE FROM orders WHERE id = 5".toList) ++ [0]))
        (fun _ => .rows []) .ok =
      (⟨some (81 :: 0 :: 0 :: 0 :: 0 ::
          (utf8Encode ("DELETE FROM orders WHERE id = 5".toList) ++ [0])),
        none⟩, .cont) := by
  constructor
  · rw [(checkrows_resolution (fun _ => some [Stmt.delete]) [] 500 _
      (fun _ => .rows [600]) .ok ("DELETE FROM orders WHERE id = 5".toList)
      ("SELECT COUNT(*) FROM orders WHERE id = 5".toList) [600]
      (by decide) (by decide) rfl).1 (by decide)]
    decide
  · rw [(checkrows_resolution (fun _ => some [Stmt.delete]) [] 500 _
      (fun _ => .rows []) .ok ("DELETE FROM orders WHERE id = 5".toList)
      ("SELECT COUNT(*) FROM orders WHERE id = 5".toList) []
      (by decide) (by decide) rfl).2.1 (by decide)]

/-- C9 (amended): a failed read on either socket, a zero-length
(end-of-stream) read on either side, a failed FORWARDING write (client
bytes upstream on an allowed query, or upstream bytes to the client) all
terminate the session; a policy rejection never terminates it. The
original claim's "any failed write" is refuted by the counterexample: a
failed write of a synthesized error response is logged and the loop
continues. -/
theorem session_termination (parse : List Char → Option (List Stmt))
    (honeytokens : List (List Char)) (maxRows : Int)
    (probe : List Char → ProbeResult) (w : WriteResult) (data : List UInt8) :
    (sessionStep parse honeytokens maxRows (.clientRead none) probe w).2 = .brk
    ∧ (sessionStep parse honeytokens maxRows
        (.clientRead (some [])) probe w).2 = .brk
    ∧ (sessionStep parse honeytokens maxRows (.dbRead none) probe w).2 = .brk
    ∧ (sessionStep parse honeytokens maxRows
        (.dbRead (some [])) probe w).2 = .brk
    ∧ (data ≠ [] →
        (sessionStep parse honeytokens maxRows
          (.dbRead (some data)) probe .err).2 = .brk)
    ∧ (∀ q, extract_query_from_message data = some q →
        analyze_query parse q honeytokens = some .Allow →
        (sessionStep parse honeytokens maxRows
          (.clientRead (some data)) probe .err).2 = .brk)
    ∧ (∀ q reason, extract_query_from_message data = some q →
        analyze_query parse q honeytokens = some (.Block reason) →
        (sessionStep parse honeytokens maxRows
          (.clientRead (some data)) probe w).2 = .cont) := by
  refine ⟨rfl, rfl, rfl, rfl, ?_, ?_, ?_⟩
  · intro hd
    cases data with
    | nil => exact absurd rfl hd
    | cons b rest => rfl
  · intro q hq ha
    cases data with
    | nil => exact absurd rfl (extract_some_ne_nil hq)
    | cons b rest =>
      simp only [sessionStep, clientChunkStep, hq, ha]
  · intro q reason hq ha
    cases data with
    | nil => exact absurd rfl (extract_some_ne_nil hq)
    | cons b rest =>
      simp only [sessionStep, clientChunkStep, hq, ha]

/-- Witness for C9 (amended): a failed upstream forward of an allowed
query breaks the loop, and a failed client read breaks the loop. -/
theorem session_termination_witness :
    (sessionStep (fun _ => some [Stmt.other]) [] 500
        (.clientRead (some (81 :: 0 :: 0 :: 0 :: 0 ::
          (utf8Encode ("SELECT 1".toList) ++ [0]))))
        (fun _ => ProbeResult.err) .err).2 = .brk
    ∧ (sessionStep (fun _ => some [Stmt.other]) [] 500 (.clientRead none)
        (fun _ => ProbeResult.err) .ok).2 = .brk := by
  constructor
  · exact (session_termination (fun _ => some [Stmt.other]) [] 500
      (fun _ => ProbeResult.err) .err
      (81 :: 0 :: 0 :: 0 :: 0 :: (utf8Encode ("SELECT 1".toList) ++ [0])))
      |>.2.2.2.2.2.1 ("SELECT 1".toList) (by decide) (by decide)
  · exact (session_termination (fun _ => some [Stmt.other]) [] 500
      (fun _ => ProbeResult.err) .ok []).1

/-- C9 counterexample: with honeytoken `"x"` configured, the query frame
for `"x"` is rejected by policy, and the subsequent error-response write
FAILS — yet the loop `continue`s (outcome is not `brk`): a failed write
on the client socket does not always terminate the session. -/
theorem session_termination_counterexample :
    (sessionStep (fun _ => none) [['x']] 500
        (.clientRead (some [81, 0, 0, 0, 0, 120, 0]))
        (fun _ => ProbeResult.err) .err).2 = .cont := by
  decide

end PgGuard
